import Mathlib

/-!
Verification of the coold-rs fan-control daemon against its specification.

This file gives a shallow embedding of the daemon's core logic
(`src/daemon.rs`), of the management interface handlers it needs
(`src/api.rs`) and of the command-line step parser (`src/cli.rs`), and
proves or refutes the specification's claims about them.

Modelling conventions:
* Rust `i32` temperatures are embedded as `ℤ` and `u8` powers as `ℕ`
  (the `u8` range appears as explicit hypotheses / clamps where it matters);
  the daemon's `f32` interpolation arithmetic is embedded exactly over `ℚ`.
* `HashMap<String, _>` values are embedded as association lists with
  first-match lookup; `HashMap` equality is key-value extensional equality.
* Rust `sort_by_key` is a stable sort by key, which computes the same list
  as `List.insertionSort` with the `≤`-by-temperature relation.
* File-system effects are embedded by passing the relevant file contents
  (or an abstract device state) explicitly.
-/

/-- Rust `str::trim` on the character list of a string: drop whitespace from
both ends (Lean's `Char.isWhitespace` covers the ASCII whitespace relevant
to sysfs contents and CLI input). -/
def trim_chars (cs : List Char) : List Char :=
  ((cs.dropWhile Char.isWhitespace).reverse.dropWhile Char.isWhitespace).reverse

/-- Rust `str::trim`, as a structurally computable function. -/
def str_trim (s : String) : String :=
  String.mk (trim_chars s.toList)

/-- Rust `str::split(sep)` on a character list: always at least one piece,
empty pieces between consecutive separators. -/
def split_char (sep : Char) : List Char → List (List Char)
  | [] => [[]]
  | c :: rest =>
      match split_char sep rest with
      | h :: t => if c = sep then [] :: h :: t else (c :: h) :: t
      | [] => [[c]]

/-- Rust `str::split(sep).collect::<Vec<_>>()`. -/
def str_split (s : String) (sep : Char) : List String :=
  (split_char sep s.toList).map String.mk

/-- One breakpoint of a fan curve (daemon.rs:26-30). `power` is a `u8`
percentage. -/
structure FanStep where
  temp : ℤ
  power : ℕ
deriving DecidableEq, Repr

/-- Per-fan configuration (daemon.rs:17-24). -/
structure FanConfig where
  sensor_name : String
  sensor_input : String
  pwm_name : String
  pwm_input : String
  steps : List FanStep
deriving DecidableEq, Repr

/-- The fan table of a `Config` (daemon.rs:12-15): a `HashMap` from fan name
to `FanConfig`, embedded as an association list with unique keys. -/
abbrev FanMap := List (String × FanConfig)

/-! ### Curve evaluator (daemon.rs:216-259) -/

/-- Rust `f32::round`: round half away from zero. The daemon's `f32`
arithmetic is modelled exactly over `ℚ`. -/
def rustRound (x : ℚ) : ℤ :=
  if 0 ≤ x then ⌊x + 1 / 2⌋ else -⌊-x + 1 / 2⌋

/-- Rust `as u8` applied to a rounded float value: a saturating cast. -/
def f32_as_u8 (z : ℤ) : ℕ :=
  (min 255 (max 0 z)).toNat

/-- The rational value of daemon.rs:246-247:
`current_step.power + power_diff * temp_offset / temp_diff` with
`temp_diff = next.temp - cur.temp`, `power_diff = next.power - cur.power`
and `temp_offset = temp - cur.temp` (`i32` subtractions embedded in `ℤ`). -/
def interp_q (cur next : FanStep) (temp : ℤ) : ℚ :=
  (cur.power : ℚ) +
    (((next.power : ℤ) - (cur.power : ℤ) : ℤ) : ℚ) * ((temp - cur.temp : ℤ) : ℚ) /
      ((next.temp - cur.temp : ℤ) : ℚ)

/-- The interpolation of daemon.rs:240-249 between two consecutive sorted
steps: `interpolated_power.round() as u8`, computed over `ℚ` (a division by
a zero `temp_diff` is unreachable from `get_fan_power`). -/
def interp_power (cur next : FanStep) (temp : ℤ) : ℕ :=
  f32_as_u8 (rustRound (interp_q cur next temp))

/-- The scan of daemon.rs:236-251: walk the consecutive pairs of the sorted
list and interpolate at the first pair bracketing `temp`. -/
def find_bracket : List FanStep → ℤ → Option ℕ
  | cur :: next :: rest, temp =>
      if cur.temp ≤ temp ∧ temp ≤ next.temp then some (interp_power cur next temp)
      else find_bracket (next :: rest) temp
  | _, _ => none

/-- Rust `min_by_key(|step| (step.temp - temp).abs())` over the nonempty list
`a :: l`: the first element with minimal key (daemon.rs:253-258). -/
def closest_step (a : FanStep) (l : List FanStep) (temp : ℤ) : FanStep :=
  l.foldl (fun m s => if (s.temp - temp).natAbs < (m.temp - temp).natAbs then s else m) a

/-- The body of daemon.rs:216-259 on the already-sorted step list: clamp
below the first and above the last breakpoint, interpolate in between, and
fall back (unreachably) to the step closest in temperature. -/
def get_fan_power_sorted : List FanStep → ℤ → ℕ
  | [], _ => 0
  | first :: rest, temp =>
      if temp ≤ first.temp then first.power
      else if ((first :: rest).getLast (List.cons_ne_nil _ _)).temp ≤ temp then
        ((first :: rest).getLast (List.cons_ne_nil _ _)).power
      else
        match find_bracket (first :: rest) temp with
        | some p => p
        | none => (closest_step first rest temp).power

/-- daemon.rs:216-259: evaluate the fan curve. The steps are sorted by
temperature with a stable sort (Rust `sort_by_key`; `List.insertionSort`
with the `≤`-by-temperature relation computes the same stable result), and
the empty list yields 0. -/
def get_fan_power (steps : List FanStep) (temp : ℤ) : ℕ :=
  get_fan_power_sorted (List.insertionSort (fun a b => a.temp ≤ b.temp) steps) temp

/-- The specification's exact linear interpolation between breakpoints `a`
and `b`, as a rational. -/
def lin_interp (a b : FanStep) (temp : ℤ) : ℚ :=
  (a.power : ℚ) +
    ((b.power : ℚ) - (a.power : ℚ)) * ((temp : ℚ) - (a.temp : ℚ)) / ((b.temp : ℚ) - (a.temp : ℚ))

/-! ### PWM actuator (daemon.rs:261-294) -/

/-- daemon.rs:262: the PWM value computed from a `u8` power percentage,
`power as u32 * 255 / 100` — a truncating `u32` division (no overflow occurs
for `power ≤ 255`). -/
def set_fan_power_pwm (power : ℕ) : ℕ :=
  power * 255 / 100

/-- daemon.rs:264: the text written to the fan's PWM value file. -/
def set_fan_power_write (power : ℕ) : String :=
  Nat.repr (set_fan_power_pwm power)

/-- api.rs:93-96: the status endpoint's power read-back,
`(pwm * 100 / 255) as u8` on a `u32` value parsed from the PWM file
(wrapping `u32` multiplication, truncating division, wrapping cast to `u8`). -/
def get_status_power (pwm : ℕ) : ℕ :=
  pwm * 100 % 2 ^ 32 / 255 % 2 ^ 8

/-- daemon.rs:269-276: read the fan's enable file (path = PWM value path +
`_enable`) from the file system `fs` and compare the trimmed content with
`"1"`; an unreadable file counts as disabled. -/
def check_pwm_enable (fan : FanConfig) (fs : String → Option String) : Bool :=
  match fs (fan.pwm_input ++ "_enable") with
  | some content => str_trim content = "1"
  | none => false

/-- daemon.rs:278-284: write `"1"` or `"0"` to the fan's enable file
(a successful write; failed writes are only logged and leave `fs`
unchanged, which the abstract device of `EnableDevice` also covers). -/
def set_pwm_enable (fan : FanConfig) (enable : Bool)
    (fs : String → Option String) : String → Option String :=
  fun path =>
    if path = fan.pwm_input ++ "_enable" then some (if enable then "1" else "0") else fs path

/-- An abstract PWM-enable device: how the enable state reads back and how a
write transforms the device state. This abstracts the file system together
with the firmware behaviour (writes may or may not stick). -/
structure EnableDevice (σ : Type) where
  read : σ → Bool
  write : Bool → σ → σ

/-- The device realised by an actual file system backing
`check_pwm_enable` / `set_pwm_enable` for a given fan. -/
def fan_enable_device (fan : FanConfig) : EnableDevice (String → Option String) where
  read := fun fs => check_pwm_enable fan fs
  write := fun enable fs => set_pwm_enable fan enable fs

/-- The loop of daemon.rs:287-293 with explicit fuel: check first, stop when
the read state matches, otherwise write and retry. Returns the final device
state and the number of `set_pwm_enable` writes performed. -/
def retry_loop {σ : Type} (d : EnableDevice σ) (enable : Bool) : ℕ → σ → σ × ℕ
  | 0, s => (s, 0)
  | n + 1, s =>
      if d.read s = enable then (s, 0)
      else
        let out := retry_loop d enable n (d.write enable s)
        (out.1, out.2 + 1)

/-- daemon.rs:286-294: `for _ in 0..10 { ... }`. -/
def set_pwm_enable_with_retry {σ : Type} (d : EnableDevice σ) (enable : Bool) (s : σ) : σ × ℕ :=
  retry_loop d enable 10 s

/-! ### Hardware-mapping fingerprint and the polling loop (daemon.rs:64-148) -/

/-- The per-fan hardware tuple of daemon.rs:140-145. -/
abbrev HwTuple := String × String × String × String

/-- daemon.rs:136-148. -/
def hw_tuple (fan : FanConfig) : HwTuple :=
  (fan.sensor_name, fan.sensor_input, fan.pwm_name, fan.pwm_input)

/-- daemon.rs:136-148: the hardware mapping derived from a fan table. -/
def extract_hw_map (fans : FanMap) : List (String × HwTuple) :=
  fans.map (fun p => (p.1, hw_tuple p.2))

/-- First-match association lookup: the model of `HashMap::get` (the fan
tables of a running daemon have unique keys). -/
def alookup {β : Type} (k : String) : List (String × β) → Option β
  | [] => none
  | p :: rest => if p.1 = k then some p.2 else alookup k rest

/-- Model of `HashMap` equality (the `!=` at daemon.rs:90): two maps are
equal iff they hold exactly the same key-value pairs. -/
def hw_map_beq (m₁ m₂ : List (String × HwTuple)) : Bool :=
  m₁.all (fun p => decide (alookup p.1 m₂ = some p.2)) &&
    m₂.all (fun p => decide (alookup p.1 m₁ = some p.2))

/-- One enable/disable actuation emitted by the loop, identified by the
target PWM path. -/
structure EnableAction where
  pwm_input : String
  enable : Bool
deriving DecidableEq, Repr

/-- daemon.rs:114-119: `cleanup_fans` disables every fan of the
configuration it reads at call time. -/
def cleanup_fans (fans : FanMap) : List EnableAction :=
  fans.map (fun p => ⟨p.2.pwm_input, false⟩)

/-- daemon.rs:122-132: `init_fans` enables every fan of the configuration it
reads at call time. -/
def init_fans (fans : FanMap) : List EnableAction :=
  fans.map (fun p => ⟨p.2.pwm_input, true⟩)

/-- The change-detection step of one polling iteration (daemon.rs:88-94):
compare the fingerprint of the current snapshot with the last recorded one;
on mismatch run `cleanup_fans` then `init_fans` — both reading the current
configuration — and record the new fingerprint. Returns the emitted
enable/disable actions and the recorded fingerprint. -/
def run_iteration (last_hw : List (String × HwTuple)) (fans : FanMap) :
    List EnableAction × List (String × HwTuple) :=
  let current := extract_hw_map fans
  if hw_map_beq current last_hw then ([], last_hw)
  else (cleanup_fans fans ++ init_fans fans, current)

/-- Modelled from the spec: the claim's reading of Reinitializing — disable
every fan of the *previous* mapping, then enable every fan of the new
mapping (spec §4.4). Stated only to be compared with `run_iteration`. -/
def claim_reinit_actions (last_hw : List (String × HwTuple)) (fans : FanMap) :
    List EnableAction :=
  last_hw.map (fun p => ⟨p.2.2.2.2, false⟩) ++ init_fans fans

/-! ### Device path resolver (daemon.rs:150-169) -/

/-- One readable glob candidate of the sysfs scan: the path of its `name`
file (as components) and its content (`none` = unreadable). -/
structure GlobCandidate where
  path : List String
  content : Option String
deriving DecidableEq, Repr

/-- Rust `Path::parent` on a component list. -/
def path_parent : List String → Option (List String)
  | [] => none
  | p :: rest => some ((p :: rest).dropLast)

/-- daemon.rs:150-169: scan the glob entries in order (`none` models an
`Err` entry from the glob iterator, which is skipped, as is an unreadable
candidate); return the parent of the first candidate whose trimmed content
equals `name`. -/
def find_sysfs_path (name : String) : List (Option GlobCandidate) → Option (List String)
  | [] => none
  | none :: rest => find_sysfs_path name rest
  | some c :: rest =>
      match c.content with
      | none => find_sysfs_path name rest
      | some content =>
          if str_trim content = name then path_parent c.path else find_sysfs_path name rest

/-- Modelled from the spec: the first readable candidate whose file content,
trimmed of whitespace, exactly equals the declared name (the claim's
wording), malformed and unreadable entries being skipped. -/
def first_matching (name : String) (entries : List (Option GlobCandidate)) :
    Option GlobCandidate :=
  entries.findSome? (fun e =>
    match e with
    | some c =>
        match c.content with
        | some content => if str_trim content = name then some c else none
        | none => none
    | none => none)

/-! ### Management interface: adding a fan (api.rs:273-312) -/

/-- `HashMap::insert`: replace the binding of an existing key, otherwise add
a new one. -/
def map_insert (k : String) (v : FanConfig) (m : FanMap) : FanMap :=
  if (alookup k m).isSome then m.map (fun p => if p.1 = k then (p.1, v) else p)
  else m ++ [(k, v)]

/-- api.rs:273-312: generate the name `fan_{len+1}` from the current number
of fans and insert the submitted fan configuration under it. Returns the
generated name and the updated fan table. -/
def add_fan (config : FanMap) (req : FanConfig) : String × FanMap :=
  let fan_name := "fan_" ++ Nat.repr (config.length + 1)
  (fan_name, map_insert fan_name req config)

/-! ### Command-line step parser (cli.rs:184-208) -/

/-- Rust digit parsing: one or more ASCII digits. -/
def parse_digits : List Char → Option ℕ
  | [] => none
  | cs =>
      cs.foldl
        (fun acc c =>
          match acc with
          | none => none
          | some n => if c.isDigit then some (n * 10 + (c.toNat - 48)) else none)
        (some 0)

/-- Rust `str::parse::<i32>`: optional sign, digits, `i32` range check. -/
def parse_i32 (s : String) : Option ℤ :=
  let (sign, digits) :=
    match s.toList with
    | '-' :: rest => ((-1 : ℤ), rest)
    | '+' :: rest => ((1 : ℤ), rest)
    | cs => ((1 : ℤ), cs)
  match parse_digits digits with
  | none => none
  | some n =>
      let v : ℤ := sign * (n : ℤ)
      if -(2 ^ 31) ≤ v ∧ v ≤ 2 ^ 31 - 1 then some v else none

/-- Rust `str::parse::<u8>`: optional `+`, digits, `u8` range check. -/
def parse_u8 (s : String) : Option ℕ :=
  let digits :=
    match s.toList with
    | '+' :: rest => rest
    | cs => cs
  match parse_digits digits with
  | none => none
  | some n => if n ≤ 255 then some n else none

instance {ε α : Type} [DecidableEq ε] [DecidableEq α] : DecidableEq (Except ε α) := fun a b =>
  match a, b with
  | .error e, .error f => decidable_of_iff (e = f) (by simp)
  | .error _, .ok _ => Decidable.isFalse (by simp)
  | .ok _, .error _ => Decidable.isFalse (by simp)
  | .ok a, .ok b => decidable_of_iff (a = b) (by simp)

/-- cli.rs:188-200: handle one `temp:power` pair — exactly two `:`-separated
parts, temperature parsed first, then power, then the `power > 100` check. -/
def parse_step_pair (pair : String) : Except String FanStep :=
  match str_split pair ':' with
  | [t, p] =>
      match parse_i32 (str_trim t) with
      | none => Except.error "invalid temperature"
      | some temp =>
          match parse_u8 (str_trim p) with
          | none => Except.error "invalid power"
          | some power =>
              if 100 < power then Except.error "Power must be between 0 and 100"
              else Except.ok ⟨temp, power⟩
  | _ => Except.error ("Invalid step format: " ++ pair)

/-- The pair loop of cli.rs:187-201: stop at the first bad pair. -/
def parse_steps_list : List String → Except String (List FanStep)
  | [] => Except.ok []
  | pair :: rest =>
      match parse_step_pair pair with
      | Except.error e => Except.error e
      | Except.ok st =>
          match parse_steps_list rest with
          | Except.error e => Except.error e
          | Except.ok sts => Except.ok (st :: sts)

/-- cli.rs:184-208: split on `,`, parse every pair, reject an empty step
list. -/
def parse_steps (s : String) : Except String (List FanStep) :=
  match parse_steps_list (str_split s ',') with
  | Except.error e => Except.error e
  | Except.ok steps =>
      if steps.isEmpty then Except.error "At least one step must be provided"
      else Except.ok steps

/-- Modelled from the spec: the claim's per-pair acceptance — exactly two
`:`-separated fields that parse as the step's integer types, power at most
100. -/
def parse_step_spec (pair : String) : Option FanStep :=
  match str_split pair ':' with
  | [t, p] =>
      match parse_i32 (str_trim t), parse_u8 (str_trim p) with
      | some temp, some power => if power ≤ 100 then some ⟨temp, power⟩ else none
      | _, _ => none
  | _ => none

/-- The request payload sent by the `update` subcommand. -/
structure UpdateRequest where
  name : String
  steps : List FanStep
deriving DecidableEq, Repr

/-- cli.rs:101-107: the `update` subcommand parses the steps first and only
issues a network request when parsing succeeds. -/
def cli_update (name steps_str : String) : Except String UpdateRequest :=
  match parse_steps steps_str with
  | Except.error e => Except.error e
  | Except.ok sts => Except.ok ⟨name, sts⟩

/-! ### Concrete sample configurations used by witnesses and
counterexamples -/

/-- A sample fan whose PWM value file is `p1`. -/
def sample_fan1 : FanConfig :=
  ⟨"k10temp", "temp1_input", "nct6799", "p1", [⟨30, 10⟩, ⟨60, 50⟩]⟩

/-- The same fan remapped to the PWM value file `p2`. -/
def sample_fan2 : FanConfig :=
  ⟨"k10temp", "temp1_input", "nct6799", "p2", [⟨30, 10⟩, ⟨60, 50⟩]⟩

/-- The same fan as `sample_fan1` with a different curve only. -/
def sample_fan3 : FanConfig :=
  ⟨"k10temp", "temp1_input", "nct6799", "p1", [⟨40, 20⟩, ⟨70, 80⟩]⟩

/-! ### Helper lemmas: retry loop -/

theorem retry_loop_writes_le {σ : Type} (d : EnableDevice σ) (enable : Bool) :
    ∀ (n : ℕ) (s : σ), (retry_loop d enable n s).2 ≤ n
  | 0, _ => Nat.le_refl 0
  | n + 1, s => by
      by_cases h : d.read s = enable
      · simp [retry_loop, h]
      · simpa [retry_loop, h] using retry_loop_writes_le d enable n (d.write enable s)

theorem retry_loop_stop {σ : Type} (d : EnableDevice σ) (enable : Bool) (n : ℕ) (s : σ)
    (h : d.read s = enable) : retry_loop d enable (n + 1) s = (s, 0) := by
  simp [retry_loop, h]

theorem retry_loop_sticky {σ : Type} (d : EnableDevice σ) (enable : Bool)
    (hw : ∀ t, d.read (d.write enable t) = enable) (n : ℕ) (s : σ) :
    (retry_loop d enable (n + 2) s).2 ≤ 1 ∧ d.read (retry_loop d enable (n + 2) s).1 = enable := by
  by_cases h : d.read s = enable
  · rw [retry_loop_stop d enable (n + 1) s h]
    exact ⟨Nat.zero_le 1, h⟩
  · have hstep : retry_loop d enable (n + 2) s =
        ((retry_loop d enable (n + 1) (d.write enable s)).1,
          (retry_loop d enable (n + 1) (d.write enable s)).2 + 1) := by
      simp [retry_loop, h]
    rw [hstep, retry_loop_stop d enable n (d.write enable s) (hw s)]
    exact ⟨Nat.le_refl 1, hw s⟩

theorem retry_loop_never {σ : Type} (d : EnableDevice σ) (enable : Bool)
    (hn : ∀ t, d.read t ≠ enable) : ∀ (n : ℕ) (s : σ), (retry_loop d enable n s).2 = n
  | 0, _ => rfl
  | n + 1, s => by
      simpa [retry_loop, hn s] using retry_loop_never d enable hn n (d.write enable s)

/-! ### Helper lemmas: association lists -/

theorem alookup_mem {β : Type} {k : String} {v : β} :
    ∀ {m : List (String × β)}, alookup k m = some v → (k, v) ∈ m := by
  intro m
  induction m with
  | nil => intro h; cases h
  | cons p rest ih =>
      intro h
      by_cases hp : p.1 = k
      · simp [alookup, hp] at h
        subst hp h
        exact List.mem_cons_self _ _
      · simp [alookup, hp] at h
        exact List.mem_cons_of_mem _ (ih h)

theorem alookup_eq_none {β : Type} {k : String} :
    ∀ {m : List (String × β)}, alookup k m = none ↔ ∀ p ∈ m, p.1 ≠ k := by
  intro m
  induction m with
  | nil => simp [alookup]
  | cons p rest ih =>
      by_cases hp : p.1 = k
      · simp [alookup, hp]
      · simp [alookup, hp, ih]

theorem mem_alookup_of_nodup {β : Type} {k : String} {v : β} :
    ∀ {m : List (String × β)}, (m.map Prod.fst).Nodup → (k, v) ∈ m → alookup k m = some v := by
  intro m
  induction m with
  | nil => intro _ h; cases h
  | cons p rest ih =>
      intro hnd hm
      rcases List.mem_cons.mp hm with h | h
      · subst h
        simp [alookup]
      · have hp : p.1 ≠ k := by
          intro hk
          have : k ∈ rest.map Prod.fst := List.mem_map.mpr ⟨(k, v), h, rfl⟩
          rw [List.map_cons, List.nodup_cons] at hnd
          exact hnd.1 (hk ▸ this)
        have := ih (by rw [List.map_cons, List.nodup_cons] at hnd; exact hnd.2) h
        simp [alookup, hp, this]

theorem alookup_extract (fans : FanMap) (k : String) :
    alookup k (extract_hw_map fans) = (alookup k fans).map hw_tuple := by
  induction fans with
  | nil => rfl
  | cons p rest ih =>
      by_cases hp : p.1 = k
      · simp [extract_hw_map, alookup, hp]
      · simpa [extract_hw_map, alookup, hp] using ih

/-! ### Helper lemmas: `HashMap` equality -/

theorem hw_map_beq_ext {m₁ m₂ : List (String × HwTuple)} (h : hw_map_beq m₁ m₂ = true) :
    ∀ k, alookup k m₁ = alookup k m₂ := by
  rw [hw_map_beq, Bool.and_eq_true, List.all_eq_true, List.all_eq_true] at h
  intro k
  cases h1 : alookup k m₁ with
  | some v =>
      have hm : (k, v) ∈ m₁ := alookup_mem h1
      have := h.1 _ hm
      simp only [decide_eq_true_eq] at this
      exact this.symm ▸ rfl
  | none =>
      cases h2 : alookup k m₂ with
      | none => rfl
      | some w =>
          have hm : (k, w) ∈ m₂ := alookup_mem h2
          have := h.2 _ hm
          simp only [decide_eq_true_eq] at this
          rw [h1] at this
          cases this

/-! ### Helper lemmas: `map_insert` -/

theorem alookup_append_self {m : FanMap} {k : String} (v : FanConfig)
    (h : alookup k m = none) : alookup k (m ++ [(k, v)]) = some v := by
  induction m with
  | nil => simp [alookup]
  | cons p rest ih =>
      by_cases hp : p.1 = k
      · simp [alookup, hp] at h
      · simp only [alookup, hp] at h ⊢
        exact ih h

theorem alookup_append_other {m : FanMap} {k k' : String} (v : FanConfig)
    (h : k ≠ k') : alookup k' (m ++ [(k, v)]) = alookup k' m := by
  induction m with
  | nil =>
      show alookup k' [(k, v)] = alookup k' []
      simp [alookup, h]
  | cons p rest ih =>
      by_cases hp : p.1 = k'
      · simp [alookup, hp]
      · simp only [List.cons_append, alookup, if_neg hp]
        exact ih

theorem alookup_replace_self {k : String} (v : FanConfig) :
    ∀ {m : FanMap}, (alookup k m).isSome →
      alookup k (m.map fun p => if p.1 = k then (p.1, v) else p) = some v := by
  intro m
  induction m with
  | nil => intro h; simp [alookup] at h
  | cons p rest ih =>
      intro h
      by_cases hp : p.1 = k
      · simp [alookup, hp]
      · simp only [alookup, if_neg hp, Option.isSome] at h
        simp only [List.map_cons, if_neg hp, alookup, if_neg hp]
        exact ih h

theorem alookup_replace_other {k k' : String} (v : FanConfig) (h : k ≠ k') :
    ∀ {m : FanMap},
      alookup k' (m.map fun p => if p.1 = k then (p.1, v) else p) = alookup k' m := by
  intro m
  induction m with
  | nil => rfl
  | cons p rest ih =>
      by_cases hp : p.1 = k
      · have hp' : p.1 ≠ k' := by rw [hp]; exact h
        simp only [List.map_cons, if_pos hp, alookup, if_neg hp']
        exact ih
      · by_cases hq : p.1 = k'
        · have hk : k' ≠ k := fun hh => h hh.symm
          simp [alookup, hp, hq, hk]
        · simp only [List.map_cons, if_neg hp, alookup, if_neg hq]
          exact ih

/-! ### Claim C2 -/

/-- Claim C2 counterexample: the claim says setting power converts percent 1
to `round(1 * 255 / 100) = 3`, but `set_fan_power` computes the truncating
integer division `1 * 255 / 100 = 2`. -/
theorem c2_counterexample :
    set_fan_power_pwm 1 = 2 ∧ round ((1 : ℚ) * 255 / 100) = 3 ∧ (2 : ℕ) ≠ 3 :=
  ⟨by decide, by norm_num [round_eq], by decide⟩

/-- Claim C2 (amended): for every percent value in 0-100, setting fan power
writes the decimal text of `⌊percent * 255 / 100⌋` — the truncating integer
division of Rust `u32` arithmetic, not the nearest-value rounding — and the
written value is at most 255. -/
theorem c2_pwm_floor (p : ℕ) (hp : p ≤ 100) :
    set_fan_power_pwm p = (⌊(p : ℚ) * 255 / 100⌋).toNat ∧
    set_fan_power_write p = Nat.repr (⌊(p : ℚ) * 255 / 100⌋).toNat ∧
    set_fan_power_pwm p ≤ 255 := by
  have hcast : ((p : ℚ) * 255) = ((p * 255 : ℕ) : ℚ) := by push_cast; ring
  have h100 : ((100 : ℕ) : ℚ) = (100 : ℚ) := by norm_num
  have hfloor : (⌊(p : ℚ) * 255 / 100⌋).toNat = p * 255 / 100 := by
    rw [hcast, ← h100, Int.floor_toNat, Nat.floor_div_nat, Nat.floor_natCast]
  refine ⟨by rw [hfloor]; rfl, by rw [hfloor]; rfl, ?_⟩
  calc p * 255 / 100 ≤ 100 * 255 / 100 :=
        Nat.div_le_div_right (Nat.mul_le_mul_right 255 hp)
    _ = 255 := by norm_num

/-- Claim C2 witness: at percent 75 the written PWM value is the floor value
191. -/
theorem c2_witness :
    set_fan_power_pwm 75 = (⌊((75 : ℕ) : ℚ) * 255 / 100⌋).toNat ∧ set_fan_power_pwm 75 = 191 :=
  ⟨(c2_pwm_floor 75 (by norm_num)).1, by decide⟩

/-! ### Claim C10 -/

/-- Claim C10: the truncating percent→PWM conversion composed with the
truncating PWM→percent read-back of the status endpoint is not the identity
on 0-100: commanding 75% writes 191 which reads back as 74%, and commanding
1% writes 2 which reads back as 0%. -/
theorem c10_roundtrip_not_identity :
    set_fan_power_pwm 75 = 191 ∧ get_status_power 191 = 74 ∧
    set_fan_power_pwm 1 = 2 ∧ get_status_power 2 = 0 ∧
    (∃ p, p ≤ 100 ∧ get_status_power (set_fan_power_pwm p) ≠ p) :=
  ⟨by decide, by decide, by decide, by decide, ⟨75, by decide, by decide⟩⟩

/-! ### Claim C6 -/

/-- Claim C6: `set_pwm_enable_with_retry` performs at most 10 write
attempts; an attempt first checks the state and stops immediately when it
already matches; when the device reflects a write by the next check it
converges (at most one write, final state reads as desired) within the 10
attempts; and when the device never reflects the desired state it returns
normally after exactly 10 writes. -/
theorem c6_retry_spec (σ : Type) (d : EnableDevice σ) (enable : Bool) (s : σ) :
    (set_pwm_enable_with_retry d enable s).2 ≤ 10 ∧
    (d.read s = enable → set_pwm_enable_with_retry d enable s = (s, 0)) ∧
    ((∀ t, d.read (d.write enable t) = enable) →
      (set_pwm_enable_with_retry d enable s).2 ≤ 1 ∧
      d.read (set_pwm_enable_with_retry d enable s).1 = enable) ∧
    ((∀ t, d.read t ≠ enable) → (set_pwm_enable_with_retry d enable s).2 = 10) := by
  refine ⟨retry_loop_writes_le d enable 10 s, ?_, ?_, ?_⟩
  · intro h
    exact retry_loop_stop d enable 9 s h
  · intro hw
    exact retry_loop_sticky d enable hw 8 s
  · intro hn
    exact retry_loop_never d enable hn 10 s

/-- Claim C6 witness: on a file-system device that accepts writes the retry
loop performs at most one write and leaves the enable state as desired, and
on a device that never reflects the change it performs exactly 10 writes. -/
theorem c6_witness :
    (set_pwm_enable_with_retry (fan_enable_device sample_fan1) true (fun _ => none)).2 ≤ 1 ∧
    (fan_enable_device sample_fan1).read
      (set_pwm_enable_with_retry (fan_enable_device sample_fan1) true (fun _ => none)).1 = true ∧
    (set_pwm_enable_with_retry ⟨fun _ => false, fun _ _ => ()⟩ true ()).2 = 10 := by
  have hsticky : ∀ t, (fan_enable_device sample_fan1).read
      ((fan_enable_device sample_fan1).write true t) = true := by
    intro t
    show check_pwm_enable sample_fan1 (set_pwm_enable sample_fan1 true t) = true
    unfold check_pwm_enable
    rw [show set_pwm_enable sample_fan1 true t (sample_fan1.pwm_input ++ "_enable") = some "1"
      from by simp [set_pwm_enable]]
    decide
  have h1 := (c6_retry_spec _ (fan_enable_device sample_fan1) true (fun _ => none)).2.2.1 hsticky
  have h2 := (c6_retry_spec Unit ⟨fun _ => false, fun _ _ => ()⟩ true ()).2.2.2
    (fun t h => Bool.false_ne_true h)
  exact ⟨h1.1, h1.2, h2⟩

/-! ### Claim C1 -/

/-- Claim C1 counterexample: when the mapping of the only fan moves from PWM
file `p1` to `p2`, the loop's reinitialization disables `p2` (the fan of the
*current* configuration) and never disables `p1`, whereas the claim's
actions disable the previous mapping's `p1`. -/
theorem c1_counterexample :
    (run_iteration (extract_hw_map [("fan1", sample_fan1)]) [("fan1", sample_fan2)]).1 ≠
      claim_reinit_actions (extract_hw_map [("fan1", sample_fan1)]) [("fan1", sample_fan2)] ∧
    EnableAction.mk "p1" false ∈
      claim_reinit_actions (extract_hw_map [("fan1", sample_fan1)]) [("fan1", sample_fan2)] ∧
    EnableAction.mk "p1" false ∉
      (run_iteration (extract_hw_map [("fan1", sample_fan1)]) [("fan1", sample_fan2)]).1 := by
  refine ⟨by decide, by decide, by decide⟩

/-- Claim C1 (amended): when the control loop detects that the fingerprint
of the current snapshot differs from the recorded one, it disables every fan
of the *current* (new) configuration — `cleanup_fans` re-reads the live
configuration, so fans only present in the previous mapping are not
touched — then enables every fan of the current configuration, then records
the new fingerprint; when the fingerprints agree it emits no enable/disable
action. -/
theorem c1_reinit_spec (last_hw : List (String × HwTuple)) (fans : FanMap) :
    (hw_map_beq (extract_hw_map fans) last_hw = false →
      run_iteration last_hw fans =
        (fans.map (fun p => ⟨p.2.pwm_input, false⟩) ++ fans.map (fun p => ⟨p.2.pwm_input, true⟩),
          extract_hw_map fans)) ∧
    (hw_map_beq (extract_hw_map fans) last_hw = true →
      run_iteration last_hw fans = ([], last_hw)) := by
  constructor
  · intro h
    simp [run_iteration, h, cleanup_fans, init_fans]
  · intro h
    simp [run_iteration, h]

/-- Claim C1 witness: the remapped sample configuration triggers exactly the
disable-then-enable actions on the current snapshot, and an unchanged
configuration triggers none. -/
theorem c1_witness :
    run_iteration (extract_hw_map [("fan1", sample_fan1)]) [("fan1", sample_fan2)] =
      ([⟨"p2", false⟩, ⟨"p2", true⟩], extract_hw_map [("fan1", sample_fan2)]) ∧
    run_iteration (extract_hw_map [("fan1", sample_fan1)]) [("fan1", sample_fan3)] =
      ([], extract_hw_map [("fan1", sample_fan1)]) := by
  constructor
  · have h := (c1_reinit_spec (extract_hw_map [("fan1", sample_fan1)]) [("fan1", sample_fan2)]).1
      (by decide)
    rw [h]; decide
  · have h := (c1_reinit_spec (extract_hw_map [("fan1", sample_fan1)]) [("fan1", sample_fan3)]).2
      (by decide)
    rw [h]

/-! ### Claim C8 -/

/-- Claim C8 counterexample: on a configuration whose only fan is named
`fan_2`, the server-generated name `fan_{len+1} = fan_2` is already a key,
and the insertion replaces the existing fan instead of adding a new entry. -/
theorem c8_counterexample :
    (add_fan [("fan_2", sample_fan1)] sample_fan2).1 = "fan_2" ∧
    (alookup "fan_2" [("fan_2", sample_fan1)]).isSome = true ∧
    (add_fan [("fan_2", sample_fan1)] sample_fan2).2 = [("fan_2", sample_fan2)] ∧
    sample_fan1 ≠ sample_fan2 := by
  refine ⟨by decide, by decide, by decide, by decide⟩

/-- Claim C8 (amended): the add-fan operation inserts the submitted fan
under the generated name `fan_{n+1}` where `n` is the current number of
fans; when that name is not already a key the new table is the old one plus
the new entry, the new entry is retrievable, and every other name maps as
before — but when the generated name collides with an existing key, that
existing fan is replaced. -/
theorem c8_add_fan_spec (config : FanMap) (req : FanConfig) :
    (add_fan config req).1 = "fan_" ++ Nat.repr (config.length + 1) ∧
    (alookup (add_fan config req).1 config = none →
      (add_fan config req).2 = config ++ [((add_fan config req).1, req)]) ∧
    alookup (add_fan config req).1 (add_fan config req).2 = some req ∧
    (∀ k, k ≠ (add_fan config req).1 → alookup k (add_fan config req).2 = alookup k config) := by
  refine ⟨rfl, ?_, ?_, ?_⟩
  · intro h
    simp only [add_fan] at h
    simp only [add_fan, map_insert, h, Option.isSome_none, Bool.false_eq_true, if_false]
  · by_cases h : (alookup ("fan_" ++ Nat.repr (config.length + 1)) config).isSome
    · simpa only [add_fan, map_insert, h, if_true] using alookup_replace_self req h
    · have hn : alookup ("fan_" ++ Nat.repr (config.length + 1)) config = none := by
        cases hh : alookup ("fan_" ++ Nat.repr (config.length + 1)) config with
        | none => rfl
        | some v => rw [hh] at h; simp at h
      simpa only [add_fan, map_insert, hn, Option.isSome_none, Bool.false_eq_true,
        if_false] using alookup_append_self req hn
  · intro k hk
    by_cases h : (alookup ("fan_" ++ Nat.repr (config.length + 1)) config).isSome
    · simpa only [add_fan, map_insert, h, if_true] using
        alookup_replace_other (m := config) req (Ne.symm hk)
    · simp only [add_fan, map_insert, h, Bool.false_eq_true, if_false]
      exact alookup_append_other req (Ne.symm hk)

/-- Claim C8 witness: adding to a collision-free table appends the new entry
under the fresh name `fan_2`. -/
theorem c8_witness :
    (add_fan [("cpu_fan", sample_fan1)] sample_fan2).2 =
      [("cpu_fan", sample_fan1)] ++ [("fan_2", sample_fan2)] := by
  have h := (c8_add_fan_spec [("cpu_fan", sample_fan1)] sample_fan2).2.1 (by decide)
  simpa using h

/-! ### Claim C5 -/

theorem extract_hw_map_keys (fans : FanMap) :
    (extract_hw_map fans).map Prod.fst = fans.map Prod.fst := by
  induction fans with
  | nil => rfl
  | cons p rest ih => simp [extract_hw_map, ih]

theorem hw_map_beq_of_ext {m₁ m₂ : List (String × HwTuple)}
    (h₁ : (m₁.map Prod.fst).Nodup) (h₂ : (m₂.map Prod.fst).Nodup)
    (h : ∀ k, alookup k m₁ = alookup k m₂) : hw_map_beq m₁ m₂ = true := by
  rw [hw_map_beq, Bool.and_eq_true, List.all_eq_true, List.all_eq_true]
  constructor
  · intro p hp
    have := mem_alookup_of_nodup h₁ (by exact hp)
    simp only [decide_eq_true_eq]
    rw [← h p.1]
    exact this
  · intro p hp
    have := mem_alookup_of_nodup h₂ (by exact hp)
    simp only [decide_eq_true_eq]
    rw [h p.1]
    exact this

/-- Claim C5: two fan tables that agree on every fan's four hardware-mapping
fields (same names, only `steps` may differ) yield equal fingerprints and
the polling loop performs no disable/enable re-initialization, whereas a
change to any of the four mapping fields of a present fan yields unequal
fingerprints and does trigger the re-initialization actions. -/
theorem c5_fingerprint_spec (fans₁ fans₂ : FanMap) :
    ((fans₁.map Prod.fst).Nodup → (fans₂.map Prod.fst).Nodup →
      (∀ k, (alookup k fans₁).map hw_tuple = (alookup k fans₂).map hw_tuple) →
      hw_map_beq (extract_hw_map fans₂) (extract_hw_map fans₁) = true ∧
      (run_iteration (extract_hw_map fans₁) fans₂).1 = []) ∧
    (∀ k c₁ c₂, alookup k fans₁ = some c₁ → alookup k fans₂ = some c₂ →
      hw_tuple c₁ ≠ hw_tuple c₂ →
      hw_map_beq (extract_hw_map fans₂) (extract_hw_map fans₁) = false ∧
      (run_iteration (extract_hw_map fans₁) fans₂).1 ≠ []) := by
  constructor
  · intro h₁ h₂ h
    have hext : ∀ k, alookup k (extract_hw_map fans₂) = alookup k (extract_hw_map fans₁) := by
      intro k
      rw [alookup_extract, alookup_extract]
      exact (h k).symm
    have hbeq : hw_map_beq (extract_hw_map fans₂) (extract_hw_map fans₁) = true :=
      hw_map_beq_of_ext (by rw [extract_hw_map_keys]; exact h₂)
        (by rw [extract_hw_map_keys]; exact h₁) hext
    refine ⟨hbeq, ?_⟩
    simp [run_iteration, hbeq]
  · intro k c₁ c₂ hl₁ hl₂ hne
    have hbeq : hw_map_beq (extract_hw_map fans₂) (extract_hw_map fans₁) = false := by
      cases hb : hw_map_beq (extract_hw_map fans₂) (extract_hw_map fans₁) with
      | false => rfl
      | true =>
          have := hw_map_beq_ext hb k
          rw [alookup_extract, alookup_extract, hl₁, hl₂] at this
          simp only [Option.map_some'] at this
          exact absurd (Option.some.inj this).symm hne
    refine ⟨hbeq, ?_⟩
    have hmem := alookup_mem hl₂
    rcases fans₂ with _ | ⟨p, rest⟩
    · cases hmem
    · simp [run_iteration, hbeq, cleanup_fans, init_fans]

/-- Claim C5 witness: a curve-only edit of the sample fan keeps the
fingerprint equal and triggers no action, while remapping its PWM file
changes the fingerprint and triggers re-initialization actions. -/
theorem c5_witness :
    (run_iteration (extract_hw_map [("fan1", sample_fan1)]) [("fan1", sample_fan3)]).1 = [] ∧
    (run_iteration (extract_hw_map [("fan1", sample_fan1)]) [("fan1", sample_fan2)]).1 ≠ [] := by
  constructor
  · refine ((c5_fingerprint_spec [("fan1", sample_fan1)] [("fan1", sample_fan3)]).1
      (by decide) (by decide) ?_).2
    intro k
    by_cases hk : ("fan1" : String) = k
    · subst hk; decide
    · simp [alookup, hk]
  · exact ((c5_fingerprint_spec [("fan1", sample_fan1)] [("fan1", sample_fan2)]).2
      "fan1" sample_fan1 sample_fan2 (by decide) (by decide) (by decide)).2

/-! ### Claim C7 -/

/-- Claim C7: `find_sysfs_path` returns the parent directory of the first
glob candidate whose trimmed file content equals the declared name (and
`none` when no candidate matches); malformed glob entries and unreadable
candidate files are skipped rather than aborting the search. Stated as a
refinement of the claim-level `first_matching` selection, for candidate
paths that have a parent. -/
theorem c7_find_sysfs_spec (name : String) (entries : List (Option GlobCandidate))
    (h : (entries.all fun e =>
        match e with
        | some c => !c.path.isEmpty
        | none => true) = true) :
    find_sysfs_path name entries =
      (first_matching name entries).map (fun c => c.path.dropLast) := by
  induction entries with
  | nil => rfl
  | cons e rest ih =>
      rw [List.all_cons, Bool.and_eq_true] at h
      have ih' := ih h.2
      cases e with
      | none =>
          simpa [find_sysfs_path, first_matching, List.findSome?_cons] using ih'
      | some c =>
          cases hc : c.content with
          | none =>
              simpa [find_sysfs_path, first_matching, List.findSome?_cons, hc] using ih'
          | some content =>
              by_cases ht : str_trim content = name
              · have hp : c.path ≠ [] := by
                  have h1 := h.1
                  simp only [Bool.not_eq_true'] at h1
                  intro hnil
                  rw [hnil] at h1
                  cases h1
                cases hpath : c.path with
                | nil => exact absurd hpath hp
                | cons q qs =>
                    simp [find_sysfs_path, first_matching, List.findSome?_cons, hc, ht,
                      path_parent, hpath]
              · simpa [find_sysfs_path, first_matching, List.findSome?_cons, hc, ht] using ih'

/-- The glob candidates used by the C7 witness: one malformed entry, one
unreadable candidate, one non-matching candidate, then two matching ones. -/
def c7_entries : List (Option GlobCandidate) :=
  [none,
   some ⟨["sys", "hwmon0", "name"], none⟩,
   some ⟨["sys", "hwmon1", "name"], some "nct6799"⟩,
   some ⟨["sys", "hwmon2", "name"], some "k10temp\n"⟩,
   some ⟨["sys", "hwmon3", "name"], some "k10temp"⟩]

/-- Claim C7 witness: on the sample scan the search skips the malformed,
unreadable and non-matching entries and returns the parent directory of the
first matching candidate. -/
theorem c7_witness :
    find_sysfs_path "k10temp" c7_entries = some ["sys", "hwmon2"] := by
  have h := c7_find_sysfs_spec "k10temp" c7_entries (by decide)
  rw [h]
  decide

/-! ### Claim C9 -/

theorem parse_step_pair_ok_iff (pair : String) (st : FanStep) :
    parse_step_pair pair = Except.ok st ↔ parse_step_spec pair = some st := by
  unfold parse_step_pair parse_step_spec
  rcases str_split pair ':' with _ | ⟨t, _ | ⟨p, _ | ⟨q, more⟩⟩⟩
  · simp
  · simp
  · cases h1 : parse_i32 (str_trim t) with
    | none => simp [h1]
    | some temp =>
        cases h2 : parse_u8 (str_trim p) with
        | none => simp [h1, h2]
        | some power =>
            by_cases hpw : 100 < power
            · have hle : ¬ power ≤ 100 := by omega
              simp [h1, h2, hpw, hle]
            · have hle : power ≤ 100 := by omega
              simp [h1, h2, hpw, hle]
  · simp

/-- Modelled from the spec: acceptance of a whole pair list — every pair
must be accepted by `parse_step_spec`, yielding the corresponding steps. -/
def parse_list_spec : List String → Option (List FanStep)
  | [] => some []
  | pair :: rest =>
      match parse_step_spec pair with
      | none => none
      | some st =>
          match parse_list_spec rest with
          | none => none
          | some sts => some (st :: sts)

theorem parse_step_pair_error_none {pair : String} {e : String}
    (h : parse_step_pair pair = Except.error e) : parse_step_spec pair = none := by
  cases hsp : parse_step_spec pair with
  | none => rfl
  | some st =>
      have := (parse_step_pair_ok_iff pair st).mpr hsp
      rw [h] at this
      cases this

theorem parse_steps_list_ok_iff :
    ∀ (pairs : List String) (l : List FanStep),
      parse_steps_list pairs = Except.ok l ↔ parse_list_spec pairs = some l := by
  intro pairs
  induction pairs with
  | nil => intro l; simp [parse_steps_list, parse_list_spec]
  | cons pair rest ih =>
      intro l
      cases hpp : parse_step_pair pair with
      | error e =>
          have hn := parse_step_pair_error_none hpp
          simp [parse_steps_list, hpp, parse_list_spec, hn]
      | ok st =>
          have hs := (parse_step_pair_ok_iff pair st).mp hpp
          cases hrest : parse_steps_list rest with
          | error e =>
              have hrn : parse_list_spec rest = none := by
                cases hm : parse_list_spec rest with
                | none => rfl
                | some sts =>
                    have := (ih sts).mpr hm
                    rw [hrest] at this
                    cases this
              simp [parse_steps_list, hpp, hrest, parse_list_spec, hs, hrn]
          | ok sts =>
              have hrm : parse_list_spec rest = some sts := (ih sts).mp hrest
              simp only [parse_steps_list, hpp, hrest, parse_list_spec, hs, hrm]
              constructor
              · intro h
                exact congrArg some (Except.ok.inj h)
              · intro h
                exact congrArg Except.ok (Option.some.inj h)

/-- Claim C9: `parse_steps` accepts a `temp:power,...` string exactly when
every comma-separated pair consists of two `:`-separated fields parseable
as the step's integer types with power at most 100 and the resulting step
list is nonempty — returning precisely the corresponding `FanStep` list —
and on rejection the `update` subcommand yields the error without building
any network request. -/
theorem c9_parse_steps_spec (name s : String) (l : List FanStep) :
    (parse_steps s = Except.ok l ↔
      parse_list_spec (str_split s ',') = some l ∧ l ≠ []) ∧
    ((∃ e, parse_steps s = Except.error e) → ∃ e, cli_update name s = Except.error e) := by
  constructor
  · cases hpl : parse_steps_list (str_split s ',') with
    | error e =>
        have hps : parse_steps s = Except.error e := by
          unfold parse_steps
          rw [hpl]
        rw [hps]
        constructor
        · intro h; cases h
        · rintro ⟨hm, _⟩
          have := (parse_steps_list_ok_iff (str_split s ',') l).mpr hm
          rw [hpl] at this
          cases this
    | ok steps =>
        have hps : parse_steps s =
            if steps.isEmpty = true then Except.error "At least one step must be provided"
            else Except.ok steps := by
          unfold parse_steps
          rw [hpl]
        rw [hps]
        have hms : parse_list_spec (str_split s ',') = some steps :=
          (parse_steps_list_ok_iff (str_split s ',') steps).mp hpl
        cases he : steps.isEmpty with
        | true =>
            have hnil : steps = [] := by
              cases steps with
              | nil => rfl
              | cons a as => simp at he
            rw [if_pos rfl]
            constructor
            · intro h; cases h
            · rintro ⟨hm, hl⟩
              rw [hms] at hm
              refine absurd ?_ hl
              rw [← Option.some.inj hm]
              exact hnil
        | false =>
            have hne : steps ≠ [] := by
              intro hnil
              rw [hnil] at he
              exact absurd he (by decide)
            rw [if_neg (show ¬ false = true by decide)]
            constructor
            · intro h
              have heq : steps = l := Except.ok.inj h
              exact ⟨heq ▸ hms, heq ▸ hne⟩
            · rintro ⟨hm, _⟩
              rw [hms] at hm
              exact congrArg Except.ok (Option.some.inj hm)
  · rintro ⟨e, he⟩
    refine ⟨e, ?_⟩
    unfold cli_update
    rw [he]

/-- Claim C9 witness: `"30:10,60:50,90:100"` parses to exactly three steps,
and `"30:150"` (power out of range) is rejected. -/
theorem c9_witness :
    parse_steps "30:10,60:50,90:100" = Except.ok [⟨30, 10⟩, ⟨60, 50⟩, ⟨90, 100⟩] ∧
    (∀ l, parse_steps "30:150" ≠ Except.ok l) := by
  constructor
  · exact ((c9_parse_steps_spec "fan1" "30:10,60:50,90:100"
      [⟨30, 10⟩, ⟨60, 50⟩, ⟨90, 100⟩]).1).mpr ⟨by decide, by decide⟩
  · intro l h
    have := ((c9_parse_steps_spec "fan1" "30:150" l).1).mp h
    rw [show parse_list_spec (str_split "30:150" ',') = none from by decide] at this
    cases this.1

/-! ### Helper lemmas: the curve evaluator -/

instance : IsTotal FanStep (fun a b => a.temp ≤ b.temp) :=
  ⟨fun a b => Int.le_total a.temp b.temp⟩

instance : IsTrans FanStep (fun a b => a.temp ≤ b.temp) :=
  ⟨fun _ _ _ hab hbc => le_trans hab hbc⟩

theorem sorted_head_le {first : FanStep} {rest : List FanStep}
    (hs : (first :: rest).Sorted (fun a b => a.temp ≤ b.temp)) :
    ∀ x ∈ first :: rest, first.temp ≤ x.temp := by
  intro x hx
  rcases List.mem_cons.mp hx with h | h
  · rw [h]
  · exact List.rel_of_sorted_cons hs x h

theorem sorted_le_getLast :
    ∀ (l : List FanStep) (h : l ≠ []), l.Sorted (fun a b => a.temp ≤ b.temp) →
      ∀ x ∈ l, x.temp ≤ (l.getLast h).temp
  | [], h, _, _, _ => absurd rfl h
  | [a], _, _, x, hx => by
      rcases List.mem_cons.mp hx with hxa | hxn
      · rw [hxa]
        exact le_refl _
      · cases hxn
  | a :: b :: t, h, hs, x, hx => by
      have hne : b :: t ≠ [] := List.cons_ne_nil _ _
      rcases List.mem_cons.mp hx with hxa | hxn
      · rw [hxa]
        exact List.rel_of_sorted_cons hs _ (List.getLast_mem hne)
      · exact sorted_le_getLast (b :: t) hne hs.of_cons x hxn

theorem interp_q_eq_lin (a b : FanStep) (temp : ℤ) :
    interp_q a b temp = lin_interp a b temp := by
  rw [interp_q, lin_interp]
  push_cast
  ring

theorem interp_q_degenerate {cur next : FanStep} (temp : ℤ) (h : next.temp = cur.temp) :
    interp_q cur next temp = (cur.power : ℚ) := by
  rw [interp_q, h]
  simp

theorem interp_q_between {cur next : FanStep} {temp : ℤ}
    (h1 : cur.temp ≤ temp) (h2 : temp ≤ next.temp) (hlt : cur.temp < next.temp) :
    ((min cur.power next.power : ℕ) : ℚ) ≤ interp_q cur next temp ∧
      interp_q cur next temp ≤ ((max cur.power next.power : ℕ) : ℚ) := by
  have htd : (0 : ℚ) < ((next.temp - cur.temp : ℤ) : ℚ) := by
    rw [Int.cast_pos]
    omega
  have hoff0 : (0 : ℚ) ≤ ((temp - cur.temp : ℤ) : ℚ) := by
    rw [Int.cast_nonneg]
    omega
  have hoffle : ((temp - cur.temp : ℤ) : ℚ) ≤ ((next.temp - cur.temp : ℤ) : ℚ) := by
    rw [Int.cast_le]
    omega
  set u : ℚ := ((temp - cur.temp : ℤ) : ℚ) / ((next.temp - cur.temp : ℤ) : ℚ) with hu
  have hu0 : 0 ≤ u := div_nonneg hoff0 (le_of_lt htd)
  have hu1 : u ≤ 1 := (div_le_one htd).mpr hoffle
  have hq : interp_q cur next temp =
      (cur.power : ℚ) + (((next.power : ℤ) - (cur.power : ℤ) : ℤ) : ℚ) * u := by
    rw [interp_q, hu, mul_div_assoc]
  rw [hq]
  rcases le_total cur.power next.power with hcn | hcn
  · have hmin : ((min cur.power next.power : ℕ) : ℚ) = (cur.power : ℚ) := by
      rw [min_eq_left hcn]
    have hmax : ((max cur.power next.power : ℕ) : ℚ) = (next.power : ℚ) := by
      rw [max_eq_right hcn]
    have hpd : (0 : ℚ) ≤ (((next.power : ℤ) - (cur.power : ℤ) : ℤ) : ℚ) := by
      rw [Int.cast_nonneg]
      omega
    constructor
    · rw [hmin]
      nlinarith [mul_nonneg hpd hu0]
    · rw [hmax]
      have hcast : ((((next.power : ℤ) - (cur.power : ℤ)) : ℤ) : ℚ) =
          (next.power : ℚ) - (cur.power : ℚ) := by push_cast; ring
      nlinarith [mul_le_of_le_one_right hpd hu1]
  · have hmin : ((min cur.power next.power : ℕ) : ℚ) = (next.power : ℚ) := by
      rw [min_eq_right hcn]
    have hmax : ((max cur.power next.power : ℕ) : ℚ) = (cur.power : ℚ) := by
      rw [max_eq_left hcn]
    have hpd : (((next.power : ℤ) - (cur.power : ℤ) : ℤ) : ℚ) ≤ 0 := by
      rw [Int.cast_nonpos]
      omega
    constructor
    · rw [hmin]
      have hcast : ((((next.power : ℤ) - (cur.power : ℤ)) : ℤ) : ℚ) =
          (next.power : ℚ) - (cur.power : ℚ) := by push_cast; ring
      nlinarith [mul_le_mul_of_nonpos_left hu1 hpd]
    · rw [hmax]
      nlinarith [mul_nonpos_of_nonpos_of_nonneg hpd hu0]

theorem rustRound_eq_round {x : ℚ} (h : 0 ≤ x) : rustRound x = round x := by
  rw [rustRound, if_pos h, round_eq]

theorem round_le_round {x y : ℚ} (h : x ≤ y) : round x ≤ round y := by
  rw [round_eq, round_eq]
  exact Int.floor_le_floor (by linarith)

theorem interp_power_spec (cur next : FanStep) (temp : ℤ)
    (h1 : cur.temp ≤ temp) (h2 : temp ≤ next.temp) (hlt : cur.temp < next.temp)
    (hc : cur.power ≤ 255) (hn : next.power ≤ 255) :
    interp_power cur next temp = (round (interp_q cur next temp)).toNat ∧
    min cur.power next.power ≤ interp_power cur next temp ∧
    interp_power cur next temp ≤ max cur.power next.power := by
  obtain ⟨hlo, hhi⟩ := interp_q_between h1 h2 hlt
  have h0 : (0 : ℚ) ≤ interp_q cur next temp := le_trans (by positivity) hlo
  have hr : rustRound (interp_q cur next temp) = round (interp_q cur next temp) :=
    rustRound_eq_round h0
  have hlo' : ((min cur.power next.power : ℕ) : ℤ) ≤ round (interp_q cur next temp) := by
    have := round_le_round hlo
    rwa [round_natCast] at this
  have hhi' : round (interp_q cur next temp) ≤ ((max cur.power next.power : ℕ) : ℤ) := by
    have := round_le_round hhi
    rwa [round_natCast] at this
  have hz0 : (0 : ℤ) ≤ round (interp_q cur next temp) := le_trans (by positivity) hlo'
  have hz255 : round (interp_q cur next temp) ≤ 255 := by
    refine le_trans hhi' ?_
    exact_mod_cast max_le hc hn
  have hcast : f32_as_u8 (round (interp_q cur next temp)) =
      (round (interp_q cur next temp)).toNat := by
    rw [f32_as_u8, max_eq_right hz0, min_eq_right hz255]
  refine ⟨by rw [interp_power, hr, hcast], ?_, ?_⟩
  · rw [interp_power, hr, hcast]
    exact (Int.le_toNat hz0).mpr hlo'
  · rw [interp_power, hr, hcast]
    exact Int.toNat_le.mpr hhi'

theorem interp_power_degenerate {cur next : FanStep} (temp : ℤ) (h : next.temp = cur.temp)
    (hc : cur.power ≤ 255) : interp_power cur next temp = cur.power := by
  rw [interp_power, interp_q_degenerate temp h, rustRound_eq_round (by positivity),
    round_natCast, f32_as_u8, max_eq_right (by positivity),
    min_eq_right (by exact_mod_cast hc)]
  exact Int.toNat_natCast _

theorem find_bracket_some :
    ∀ (S : List FanStep), S.Sorted (fun a b => a.temp ≤ b.temp) → ∀ (temp : ℤ) (p : ℕ),
      find_bracket S temp = some p →
      ∃ cur next, cur ∈ S ∧ next ∈ S ∧ cur.temp ≤ temp ∧ temp ≤ next.temp ∧
        cur.temp ≤ next.temp ∧ p = interp_power cur next temp
  | [], _, temp, p, h => by simp [find_bracket] at h
  | [a], _, temp, p, h => by simp [find_bracket] at h
  | cur :: next :: rest, hs, temp, p, h => by
      by_cases hcond : cur.temp ≤ temp ∧ temp ≤ next.temp
      · simp only [find_bracket, if_pos hcond] at h
        refine ⟨cur, next, List.mem_cons_self _ _,
          List.mem_cons_of_mem _ (List.mem_cons_self _ _), hcond.1, hcond.2, ?_,
          (Option.some.inj h).symm⟩
        exact List.rel_of_sorted_cons hs next (List.mem_cons_self _ _)
      · simp only [find_bracket, if_neg hcond] at h
        obtain ⟨c, n, hcm, hnm, ha, hb, hd, he⟩ :=
          find_bracket_some (next :: rest) hs.of_cons temp p h
        exact ⟨c, n, List.mem_cons_of_mem _ hcm, List.mem_cons_of_mem _ hnm, ha, hb, hd, he⟩

theorem closest_step_mem :
    ∀ (l : List FanStep) (a : FanStep) (temp : ℤ), closest_step a l temp ∈ a :: l
  | [], a, temp => List.mem_cons_self a []
  | s :: t, a, temp => by
      have hrec := closest_step_mem t
        (if (s.temp - temp).natAbs < (a.temp - temp).natAbs then s else a) temp
      have hstep : closest_step a (s :: t) temp =
          closest_step (if (s.temp - temp).natAbs < (a.temp - temp).natAbs then s else a)
            t temp := rfl
      rw [hstep]
      rcases List.mem_cons.mp hrec with h1 | h1
      · by_cases hcnd : (s.temp - temp).natAbs < (a.temp - temp).natAbs
        · rw [h1, if_pos hcnd]
          exact List.mem_cons_of_mem _ (List.mem_cons_self _ _)
        · rw [h1, if_neg hcnd]
          exact List.mem_cons_self _ _
      · exact List.mem_cons_of_mem _ (List.mem_cons_of_mem _ h1)

/-! ### Claim C3 -/

/-- Claim C3: `get_fan_power` returns 0 on an empty step list; for
temperatures at or below the minimum breakpoint it returns a
minimum-temperature step's power, and at or above the maximum breakpoint a
maximum-temperature step's power; and whenever all step powers lie in
0-100 the result lies in 0-100, with no error path (the function is total). -/
theorem c3_curve_clamp_spec (steps : List FanStep) (temp : ℤ) :
    get_fan_power [] temp = 0 ∧
    ((∀ s ∈ steps, s.power ≤ 100) → get_fan_power steps temp ≤ 100) ∧
    (steps ≠ [] → (∀ s ∈ steps, temp ≤ s.temp) →
      ∃ s ∈ steps, (∀ u ∈ steps, s.temp ≤ u.temp) ∧ get_fan_power steps temp = s.power) ∧
    (steps ≠ [] → (∀ s ∈ steps, s.temp ≤ temp) →
      ∃ s ∈ steps, (∀ u ∈ steps, u.temp ≤ s.temp) ∧ get_fan_power steps temp = s.power) := by
  have hgp : get_fan_power steps temp =
      get_fan_power_sorted (List.insertionSort (fun a b => a.temp ≤ b.temp) steps) temp := rfl
  have hsorted := List.sorted_insertionSort (fun a b => a.temp ≤ b.temp) steps
  have hperm := List.perm_insertionSort (fun a b => a.temp ≤ b.temp) steps
  refine ⟨rfl, ?_, ?_, ?_⟩
  · intro hp
    cases hS : List.insertionSort (fun a b => a.temp ≤ b.temp) steps with
    | nil => rw [hgp, hS]; exact Nat.zero_le 100
    | cons first rest =>
        rw [hS] at hperm hsorted
        rw [hgp, hS]
        simp only [get_fan_power_sorted]
        split_ifs with hb1 hb2
        · exact hp first (hperm.mem_iff.mp (List.mem_cons_self _ _))
        · exact hp _ (hperm.mem_iff.mp (List.getLast_mem _))
        · cases hfb : find_bracket (first :: rest) temp with
          | some p =>
              simp only [hfb]
              obtain ⟨c, n, hcm, hnm, hc1, hc2, hc3, hc4⟩ :=
                find_bracket_some _ hsorted temp p hfb
              have hpc : c.power ≤ 100 := hp c (hperm.mem_iff.mp hcm)
              have hpn : n.power ≤ 100 := hp n (hperm.mem_iff.mp hnm)
              rcases lt_or_eq_of_le hc3 with hlt | heq
              · have hspec := interp_power_spec c n temp hc1 hc2 hlt
                  (le_trans hpc (by norm_num)) (le_trans hpn (by norm_num))
                calc p = interp_power c n temp := hc4
                  _ ≤ max c.power n.power := hspec.2.2
                  _ ≤ 100 := max_le hpc hpn
              · have hdeg := interp_power_degenerate temp heq.symm
                  (le_trans hpc (by norm_num))
                rw [hc4, hdeg]
                exact hpc
          | none =>
              simp only [hfb]
              exact hp _ (hperm.mem_iff.mp (closest_step_mem rest first temp))
  · intro hne h
    cases hS : List.insertionSort (fun a b => a.temp ≤ b.temp) steps with
    | nil =>
        rw [hS] at hperm
        exact absurd (List.Perm.eq_nil hperm.symm) hne
    | cons first rest =>
        rw [hS] at hperm hsorted
        have hfirst_mem : first ∈ steps := hperm.mem_iff.mp (List.mem_cons_self _ _)
        refine ⟨first, hfirst_mem, ?_, ?_⟩
        · intro u hu
          exact sorted_head_le hsorted u (hperm.mem_iff.mpr hu)
        · rw [hgp, hS]
          simp only [get_fan_power_sorted, if_pos (h first hfirst_mem)]
  · intro hne h
    cases hS : List.insertionSort (fun a b => a.temp ≤ b.temp) steps with
    | nil =>
        rw [hS] at hperm
        exact absurd (List.Perm.eq_nil hperm.symm) hne
    | cons first rest =>
        rw [hS] at hperm hsorted
        have hfirst_mem : first ∈ steps := hperm.mem_iff.mp (List.mem_cons_self _ _)
        by_cases hb1 : temp ≤ first.temp
        · refine ⟨first, hfirst_mem, ?_, ?_⟩
          · intro u hu
            exact le_trans (h u hu) hb1
          · rw [hgp, hS]
            simp only [get_fan_power_sorted, if_pos hb1]
        · have hlast_mem : (first :: rest).getLast (List.cons_ne_nil _ _) ∈ steps :=
            hperm.mem_iff.mp (List.getLast_mem _)
          refine ⟨(first :: rest).getLast (List.cons_ne_nil _ _), hlast_mem, ?_, ?_⟩
          · intro u hu
            exact sorted_le_getLast (first :: rest) (List.cons_ne_nil _ _) hsorted u
              (hperm.mem_iff.mpr hu)
          · rw [hgp, hS]
            simp only [get_fan_power_sorted, if_neg hb1, if_pos (h _ hlast_mem)]

/-- Claim C3 witness: on the sample curve `[{40,30},{70,90}]` at 100 °C the
result is at most 100 and equals a maximum-temperature step's power, and the
empty curve yields 0. -/
theorem c3_witness :
    get_fan_power [⟨40, 30⟩, ⟨70, 90⟩] 100 ≤ 100 ∧
    (∃ s ∈ [(⟨40, 30⟩ : FanStep), ⟨70, 90⟩],
      (∀ u ∈ [(⟨40, 30⟩ : FanStep), ⟨70, 90⟩], u.temp ≤ s.temp) ∧
      get_fan_power [⟨40, 30⟩, ⟨70, 90⟩] 100 = s.power) ∧
    get_fan_power [] (25 : ℤ) = 0 :=
  ⟨(c3_curve_clamp_spec [⟨40, 30⟩, ⟨70, 90⟩] 100).2.1 (by decide),
   (c3_curve_clamp_spec [⟨40, 30⟩, ⟨70, 90⟩] 100).2.2.2 (by decide) (by decide),
   (c3_curve_clamp_spec [] 25).1⟩

/-! ### Claim C4 -/

theorem find_bracket_exact :
    ∀ (S : List FanStep), S.Sorted (fun a b => a.temp < b.temp) →
      ∀ (a b : FanStep) (temp : ℤ), a ∈ S → b ∈ S → a.temp < temp → temp < b.temp →
      (∀ s ∈ S, s.temp ≤ a.temp ∨ b.temp ≤ s.temp) →
      find_bracket S temp = some (interp_power a b temp)
  | [], _, a, _, _, ha, _, _, _, _ => absurd ha (List.not_mem_nil a)
  | [x], _, a, b, temp, ha, hb, h1, h2, _ => by
      have hax : a = x := by simpa using ha
      have hbx : b = x := by simpa using hb
      rw [hax] at h1
      rw [hbx] at h2
      exact absurd (lt_trans h1 h2) (lt_irrefl _)
  | x :: y :: rest, hs, a, b, temp, ha, hb, h1, h2, hadj => by
      have hxy : x.temp < y.temp := List.rel_of_sorted_cons hs y (List.mem_cons_self _ _)
      by_cases hcond : x.temp ≤ temp ∧ temp ≤ y.temp
      · have hax : a = x := by
          rcases List.mem_cons.mp ha with h | h
          · exact h
          · exfalso
            have hya : y.temp ≤ a.temp := by
              rcases List.mem_cons.mp h with h' | h'
              · rw [h']
              · exact le_of_lt (List.rel_of_sorted_cons hs.of_cons a h')
            linarith [hcond.2]
        subst hax
        have hby : b = y := by
          rcases List.mem_cons.mp hb with h | h
          · exfalso
            rw [h] at h2
            exact absurd (lt_of_le_of_lt hcond.1 h2) (lt_irrefl _)
          · rcases List.mem_cons.mp h with h' | h'
            · exact h'
            · exfalso
              have hyb : y.temp < b.temp := List.rel_of_sorted_cons hs.of_cons b h'
              rcases hadj y (List.mem_cons_of_mem _ (List.mem_cons_self _ _)) with hy1 | hy2
              · linarith
              · linarith
        subst hby
        simp only [find_bracket, if_pos hcond]
      · have hyt : y.temp < temp := by
          rcases not_and_or.mp hcond with hx | hy
          · exfalso
            have hxa : x.temp ≤ a.temp := by
              rcases List.mem_cons.mp ha with h | h
              · rw [h]
              · exact le_of_lt (List.rel_of_sorted_cons hs a h)
            exact hx (le_trans hxa (le_of_lt h1))
          · exact not_le.mp hy
        have ha' : a ∈ y :: rest := by
          rcases List.mem_cons.mp ha with h | h
          · exfalso
            rcases hadj y (List.mem_cons_of_mem _ (List.mem_cons_self _ _)) with hy1 | hy2
            · rw [h] at hy1
              linarith
            · linarith
          · exact h
        have hb' : b ∈ y :: rest := by
          rcases List.mem_cons.mp hb with h | h
          · exfalso
            rw [h] at h2
            linarith
          · exact h
        have hrec := find_bracket_exact (y :: rest) hs.of_cons a b temp ha' hb' h1 h2
          (fun s hsm => hadj s (List.mem_cons_of_mem _ hsm))
        simp only [find_bracket, if_neg hcond]
        exact hrec

/-- Claim C4 (amended): for every steps list whose temperatures are pairwise
distinct (at least two of them) and every temperature strictly between two
temperature-adjacent breakpoints `a` and `b`, `get_fan_power` returns the
exact linear interpolation of power rounded to the nearest integer, a value
between the two breakpoints' powers inclusive. (`u8` powers are at most
255.) -/
theorem c4_interpolation_spec (steps : List FanStep) (temp : ℤ) (a b : FanStep)
    (hnd : steps.Pairwise (fun s t => s.temp ≠ t.temp))
    (hu8 : ∀ s ∈ steps, s.power ≤ 255)
    (ha : a ∈ steps) (hb : b ∈ steps)
    (h1 : a.temp < temp) (h2 : temp < b.temp)
    (hadj : ∀ s ∈ steps, s.temp ≤ a.temp ∨ b.temp ≤ s.temp) :
    get_fan_power steps temp = (round (lin_interp a b temp)).toNat ∧
    min a.power b.power ≤ get_fan_power steps temp ∧
    get_fan_power steps temp ≤ max a.power b.power := by
  have hgp : get_fan_power steps temp =
      get_fan_power_sorted (List.insertionSort (fun a b => a.temp ≤ b.temp) steps) temp := rfl
  have hsorted := List.sorted_insertionSort (fun a b => a.temp ≤ b.temp) steps
  have hperm := List.perm_insertionSort (fun a b => a.temp ≤ b.temp) steps
  have hndS : (List.insertionSort (fun a b => a.temp ≤ b.temp) steps).Pairwise
      (fun s t => s.temp ≠ t.temp) :=
    (List.Perm.pairwise_iff (fun h => Ne.symm h) hperm).mpr hnd
  have hstrict : (List.insertionSort (fun a b => a.temp ≤ b.temp) steps).Sorted
      (fun a b => a.temp < b.temp) := by
    have hand := List.Pairwise.and hsorted hndS
    exact hand.imp (fun hxy => lt_of_le_of_ne hxy.1 hxy.2)
  have haS : a ∈ List.insertionSort (fun a b => a.temp ≤ b.temp) steps := hperm.mem_iff.mpr ha
  have hbS : b ∈ List.insertionSort (fun a b => a.temp ≤ b.temp) steps := hperm.mem_iff.mpr hb
  have hadjS : ∀ s ∈ List.insertionSort (fun a b => a.temp ≤ b.temp) steps,
      s.temp ≤ a.temp ∨ b.temp ≤ s.temp := fun s hsm => hadj s (hperm.mem_iff.mp hsm)
  cases hS : List.insertionSort (fun a b => a.temp ≤ b.temp) steps with
  | nil =>
      rw [hS] at haS
      exact absurd haS (List.not_mem_nil a)
  | cons first rest =>
      rw [hS] at haS hbS hstrict hsorted hadjS
      have hb1 : ¬ temp ≤ first.temp := by
        have hfa : first.temp ≤ a.temp := sorted_head_le hsorted a haS
        intro hcon
        linarith
      have hb2 : ¬ ((first :: rest).getLast (List.cons_ne_nil _ _)).temp ≤ temp := by
        have hbl : b.temp ≤ ((first :: rest).getLast (List.cons_ne_nil _ _)).temp :=
          sorted_le_getLast (first :: rest) (List.cons_ne_nil _ _) hsorted b hbS
        intro hcon
        linarith
      have hfb := find_bracket_exact (first :: rest) hstrict a b temp haS hbS h1 h2 hadjS
      rw [hgp, hS]
      simp only [get_fan_power_sorted, if_neg hb1, if_neg hb2, hfb]
      have hab : a.temp < b.temp := lt_trans h1 h2
      have hspec := interp_power_spec a b temp (le_of_lt h1) (le_of_lt h2) hab
        (hu8 a ha) (hu8 b hb)
      rw [interp_q_eq_lin] at hspec
      exact hspec

/-- Claim C4 counterexample: with a duplicated breakpoint temperature the
claim as stated fails. In `[{0,0},{0,100},{10,100}]` the breakpoints
`{0,0}` and `{10,100}` are temperature-adjacent (no breakpoint temperature
lies strictly between 0 and 10) and 5 lies strictly between them, yet
`get_fan_power` returns 100 while the exact interpolation between those two
breakpoints rounds to 50. -/
theorem c4_counterexample :
    get_fan_power [⟨0, 0⟩, ⟨0, 100⟩, ⟨10, 100⟩] 5 = 100 ∧
    (round (lin_interp ⟨0, 0⟩ ⟨10, 100⟩ 5)).toNat = 50 ∧
    (⟨0, 0⟩ : FanStep) ∈ [(⟨0, 0⟩ : FanStep), ⟨0, 100⟩, ⟨10, 100⟩] ∧
    (⟨10, 100⟩ : FanStep) ∈ [(⟨0, 0⟩ : FanStep), ⟨0, 100⟩, ⟨10, 100⟩] ∧
    (∀ s ∈ [(⟨0, 0⟩ : FanStep), ⟨0, 100⟩, ⟨10, 100⟩], s.temp ≤ 0 ∨ 10 ≤ s.temp) ∧
    (100 : ℕ) ≠ 50 := by
  refine ⟨?_, ?_, by decide, by decide, by decide, by decide⟩
  · norm_num [get_fan_power, get_fan_power_sorted, List.insertionSort, List.orderedInsert,
      find_bracket, interp_power, interp_q, f32_as_u8, rustRound, List.getLast]
    rfl
  · norm_num [lin_interp, round_eq]
    rfl

/-- Claim C4 witness: for the sample curve `[{0,20},{50,50},{80,100}]` at
65 °C the result is the rounded exact interpolation between `{50,50}` and
`{80,100}`, namely 75. -/
theorem c4_witness :
    get_fan_power [⟨0, 20⟩, ⟨50, 50⟩, ⟨80, 100⟩] 65 =
      (round (lin_interp ⟨50, 50⟩ ⟨80, 100⟩ 65)).toNat ∧
    get_fan_power [⟨0, 20⟩, ⟨50, 50⟩, ⟨80, 100⟩] 65 = 75 := by
  constructor
  · exact (c4_interpolation_spec [⟨0, 20⟩, ⟨50, 50⟩, ⟨80, 100⟩] 65 ⟨50, 50⟩ ⟨80, 100⟩
      (by decide) (by decide) (by decide) (by decide) (by decide) (by decide) (by decide)).1
  · norm_num [get_fan_power, get_fan_power_sorted, List.insertionSort, List.orderedInsert,
      find_bracket, interp_power, interp_q, f32_as_u8, rustRound, List.getLast]
    rfl
